import Mathlib

/-!
Shallow embedding of the core logic of the zotero-AI plugin
(src/utils/llmResponse.ts, src/utils/openai.ts, src/utils/zoteroFiles.ts,
src/ui/chatNoteComposer.ts, src/modules/aiChat.ts) and proofs about it.

JavaScript values flowing through the plugin are JSON-like; they are
modelled by the inductive type `Json` below.  Numbers are modelled as
integers (every numeric literal the plugin manipulates is integral);
object fields are an ordered association list.  JS strings are modelled
by Lean `String` (the inputs of interest are ASCII).
-/

/-- JSON-like JavaScript value (acyclic; numbers restricted to integers). -/
inductive Json where
  | null : Json
  | bool (b : Bool) : Json
  | num (n : Int) : Json
  | str (s : String) : Json
  | arr (elems : List Json) : Json
  | obj (fields : List (String × Json)) : Json

mutual

/-- Structural size of a JSON value (used as a recursion-depth bound for
the fuel-encoded recursive functions below; the derived `SizeOf` is not
executable for this nested inductive). -/
def jsize : Json → Nat
  | .null => 1
  | .bool _ => 1
  | .num _ => 1
  | .str _ => 1
  | .arr xs => 1 + jsizeList xs
  | .obj fs => 1 + jsizeFields fs

/-- Structural size of a list of JSON values. -/
def jsizeList : List Json → Nat
  | [] => 0
  | x :: xs => 1 + jsize x + jsizeList xs

/-- Structural size of a field list. -/
def jsizeFields : List (String × Json) → Nat
  | [] => 0
  | f :: fs => 1 + jsize f.2 + jsizeFields fs

end

/-- Every JSON value has positive size. -/
theorem jsize_pos (v : Json) : 0 < jsize v := by
  cases v <;> simp [jsize]

/-- A list member is smaller than the list. -/
theorem jsize_lt_of_mem {c : Json} {cs : List Json} (h : c ∈ cs) :
    jsize c < 1 + jsizeList cs := by
  induction cs with
  | nil => cases h
  | cons x xs ih =>
      rcases List.mem_cons.mp h with rfl | h2
      · simp [jsizeList]; omega
      · have := ih h2
        simp [jsizeList]; omega

/-- Property access `v.k` on a JS value: defined (`some`) only for object
fields that are present; everything else is `undefined` (`none`). -/
def getField : Json → String → Option Json
  | .obj fs, k => fs.lookup k
  | _, _ => none

/-- JS truthiness of a value (`NaN` is not representable here). -/
def jsTruthy : Json → Bool
  | .null => false
  | .bool b => b
  | .num n => n != 0
  | .str s => s != ""
  | .arr _ => true
  | .obj _ => true

/-- Truthiness of a possibly-`undefined` value. -/
def jsTruthyO : Option Json → Bool
  | none => false
  | some v => jsTruthy v

/-- JS `a ?? b` guard: `null`/`undefined` fall through to the alternative. -/
def jsCoalesce (o : Option Json) : Option Json :=
  match o with
  | some .null => none
  | x => x

/-- JS `String.prototype.startsWith`, via the character list. -/
def jsStartsWith (s pre : String) : Bool :=
  pre.data.isPrefixOf s.data

/-- JS `String.prototype.endsWith`. -/
def jsEndsWith (s suf : String) : Bool :=
  suf.data.reverse.isPrefixOf s.data.reverse

/-- Whitespace as matched by JS (`trim`, the regex class backslash-s),
restricted to its ASCII members (the inputs of interest are ASCII). -/
def jsWsChar (c : Char) : Bool :=
  c = ' ' || c = '\t' || c = '\n' || c = '\r' || c = '\x0b' || c = '\x0c'

/-- JS `String.prototype.trim`: strip whitespace from both ends. -/
def jsTrim (s : String) : String :=
  String.mk (((s.data.dropWhile jsWsChar).reverse.dropWhile jsWsChar).reverse)

/-- JS `String.prototype.slice(0, n)`. -/
def jsTake (s : String) (n : Nat) : String :=
  String.mk (s.data.take n)

/-- JS `String.prototype.toLowerCase` (ASCII case mapping). -/
def jsToLower (s : String) : String :=
  String.mk (s.data.map Char.toLower)

/-- JS `Array.prototype.join(sep)` on a list of strings. -/
def joinSep (sep : String) : List String → String
  | [] => ""
  | [x] => x
  | x :: xs => x ++ sep ++ joinSep sep xs

/-- JS `String(v)` coercion of a value, with a fuel bound on the
recursion depth into arrays (`jsize` is always sufficient fuel: every
array element is structurally smaller).  Array join follows
`Array.prototype.toString`: comma-separated, `null` elements render
empty. -/
def jsToStringF : Nat → Json → String
  | 0, _ => ""
  | fuel + 1, v =>
      match v with
      | .null => "null"
      | .bool b => cond b "true" "false"
      | .num n => toString n
      | .str s => s
      | .arr xs =>
          joinSep ","
            (xs.map fun x =>
              match x with
              | .null => ""
              | w => jsToStringF fuel w)
      | .obj _ => "[object Object]"

/-- JS `String(v)` coercion of a value. -/
def jsToString (v : Json) : String :=
  jsToStringF (jsize v) v

/-- Escape one character for a JSON string literal, as `JSON.stringify` does. -/
def escapeJsonChar (c : Char) : String :=
  if c = '"' then "\\\""
  else if c = '\\' then "\\\\"
  else if c = '\n' then "\\n"
  else if c = '\r' then "\\r"
  else if c = '\t' then "\\t"
  else if c = '\x08' then "\\b"
  else if c = '\x0c' then "\\f"
  else if c.toNat < 0x20 then
    "\\u00" ++ String.mk [Nat.digitChar (c.toNat / 16), Nat.digitChar (c.toNat % 16)]
  else String.mk [c]

/-- JSON string literal for `s`, with quotes. -/
def quoteJsonString (s : String) : String :=
  "\"" ++ String.join (s.data.map escapeJsonChar) ++ "\""

/-- `JSON.stringify(v, null, 2)` at the current indentation `ind` (the
gap is two spaces, per the source's only stringify call sites), with a
fuel bound on the recursion depth (`jsize` is always sufficient fuel).
Non-empty arrays and objects place each member on its own line at the
deeper indentation, comma-separated. -/
def stringifyIndentF : Nat → String → Json → String
  | 0, _, _ => ""
  | fuel + 1, ind, v =>
      match v with
      | .null => "null"
      | .bool b => cond b "true" "false"
      | .num n => toString n
      | .str s => quoteJsonString s
      | .arr [] => "[]"
      | .arr xs =>
          "[\n" ++
            joinSep ",\n"
              (xs.map fun x => ind ++ "  " ++ stringifyIndentF fuel (ind ++ "  ") x) ++
            "\n" ++ ind ++ "]"
      | .obj [] => "\x7b\x7d"
      | .obj fs =>
          "\x7b\n" ++
            joinSep ",\n"
              (fs.map fun f => ind ++ "  " ++ quoteJsonString f.1 ++ ": " ++
                stringifyIndentF fuel (ind ++ "  ") f.2) ++
            "\n" ++ ind ++ "\x7d"

/-- `JSON.stringify(v, null, 2)` at indentation `ind`. -/
def stringifyIndent (ind : String) (v : Json) : String :=
  stringifyIndentF (jsize v) ind v

/-- `JSON.stringify(v, null, 2)` as called by the normalizer. -/
def jsonStringify2 (v : Json) : String :=
  stringifyIndent "" v

/-- JSON source whitespace (also the set `atob` strips). -/
def jsonWs (c : Char) : Bool :=
  c = ' ' || c = '\t' || c = '\n' || c = '\r'

/-- Drop leading JSON whitespace. -/
def skipWs (cs : List Char) : List Char :=
  cs.dropWhile jsonWs

/-- Hex digit value, if `c` is a hex digit. -/
def hexVal (c : Char) : Option Nat :=
  if '0' ≤ c ∧ c ≤ '9' then some (c.toNat - '0'.toNat)
  else if 'a' ≤ c ∧ c ≤ 'f' then some (c.toNat - 'a'.toNat + 10)
  else if 'A' ≤ c ∧ c ≤ 'F' then some (c.toNat - 'A'.toNat + 10)
  else none

/-- Parse the body of a JSON string literal (opening quote already consumed).
Surrogate escapes are rejected (a lone surrogate is not a Lean `Char`);
the repository never feeds such input to `JSON.parse`. -/
def parseStringBody : List Char → List Char → Option (String × List Char)
  | acc, '"' :: rest => some (String.mk acc.reverse, rest)
  | acc, '\\' :: e :: rest =>
      match e with
      | '"' => parseStringBody ('"' :: acc) rest
      | '\\' => parseStringBody ('\\' :: acc) rest
      | '/' => parseStringBody ('/' :: acc) rest
      | 'b' => parseStringBody ('\x08' :: acc) rest
      | 'f' => parseStringBody ('\x0c' :: acc) rest
      | 'n' => parseStringBody ('\n' :: acc) rest
      | 'r' => parseStringBody ('\r' :: acc) rest
      | 't' => parseStringBody ('\t' :: acc) rest
      | 'u' =>
          match rest with
          | h1 :: h2 :: h3 :: h4 :: rest' =>
              match hexVal h1, hexVal h2, hexVal h3, hexVal h4 with
              | some a, some b, some c, some d =>
                  let code := ((a * 16 + b) * 16 + c) * 16 + d
                  if code < 0xd800 || (0xdfff < code && code < 0x110000) then
                    parseStringBody (Char.ofNat code :: acc) rest'
                  else none
              | _, _, _, _ => none
          | _ => none
      | _ => none
  | acc, c :: rest =>
      if c.toNat < 0x20 then none
      else parseStringBody (c :: acc) rest
  | _, [] => none

/-- Parse a run of decimal digits. -/
def parseDigits : List Char → List Char × List Char
  | c :: rest =>
      if c.isDigit then
        let (ds, r) := parseDigits rest
        (c :: ds, r)
      else ([], c :: rest)
  | [] => ([], [])

/-- Parse a JSON integer literal (the model restricts numbers to integers;
fractional or exponent forms fail to parse). -/
def parseNumber (cs : List Char) : Option (Json × List Char) :=
  let (neg, cs1) :=
    match cs with
    | '-' :: rest => (true, rest)
    | _ => (false, cs)
  match cs1 with
  | c :: _ =>
      if c.isDigit then
        let (ds, r) := parseDigits cs1
        if ds.length > 1 ∧ ds.headD '0' = '0' then none
        else
          match r with
          | '.' :: _ => none
          | 'e' :: _ => none
          | 'E' :: _ => none
          | _ =>
              let n : Nat := ds.foldl (fun a c => a * 10 + (c.toNat - '0'.toNat)) 0
              some (.num (if neg then -(n : Int) else (n : Int)), r)
      else none
  | [] => none

mutual

/-- Fuel-driven recursive-descent parser for a JSON value. -/
def parseValue : Nat → List Char → Option (Json × List Char)
  | 0, _ => none
  | fuel + 1, cs =>
      match skipWs cs with
      | '"' :: rest => (parseStringBody [] rest).map fun p => (.str p.1, p.2)
      | '{' :: rest => parseObjBody fuel (skipWs rest)
      | '[' :: rest => parseArrBody fuel (skipWs rest)
      | 't' :: 'r' :: 'u' :: 'e' :: rest => some (.bool true, rest)
      | 'f' :: 'a' :: 'l' :: 's' :: 'e' :: rest => some (.bool false, rest)
      | 'n' :: 'u' :: 'l' :: 'l' :: rest => some (.null, rest)
      | other => parseNumber other

/-- Parse object members after `{` (leading whitespace consumed). -/
def parseObjBody : Nat → List Char → Option (Json × List Char)
  | _, '}' :: rest => some (.obj [], rest)
  | 0, _ => none
  | fuel + 1, cs => parseMembers fuel cs []

/-- Parse one `"key": value` member and continue at `,` or stop at `}`. -/
def parseMembers : Nat → List Char → List (String × Json) →
    Option (Json × List Char)
  | 0, _, _ => none
  | fuel + 1, cs, acc =>
      match skipWs cs with
      | '"' :: rest =>
          match parseStringBody [] rest with
          | none => none
          | some (k, r1) =>
              match skipWs r1 with
              | ':' :: r2 =>
                  match parseValue fuel r2 with
                  | none => none
                  | some (v, r3) =>
                      match skipWs r3 with
                      | ',' :: r4 => parseMembers fuel r4 ((k, v) :: acc)
                      | '}' :: r4 => some (.obj ((k, v) :: acc).reverse, r4)
                      | _ => none
              | _ => none
      | _ => none

/-- Parse array elements after `[` (leading whitespace consumed). -/
def parseArrBody : Nat → List Char → Option (Json × List Char)
  | _, ']' :: rest => some (.arr [], rest)
  | 0, _ => none
  | fuel + 1, cs => parseElems fuel cs []

/-- Parse one array element and continue at `,` or stop at `]`. -/
def parseElems : Nat → List Char → List Json → Option (Json × List Char)
  | 0, _, _ => none
  | fuel + 1, cs, acc =>
      match parseValue fuel cs with
      | none => none
      | some (v, r1) =>
          match skipWs r1 with
          | ',' :: r2 => parseElems fuel r2 (v :: acc)
          | ']' :: r2 => some (.arr (v :: acc).reverse, r2)
          | _ => none

end

/-- `JSON.parse`: `some` on a well-formed JSON document, `none` where the
JS call would throw a `SyntaxError`.  The fuel bound is generous: each
unit of nesting consumes at least one input character and at most four
units of fuel. -/
def jsonParse (s : String) : Option Json :=
  match parseValue (4 * s.data.length + 4) s.data with
  | some (v, rest) => if skipWs rest = [] then some v else none
  | none => none

/-!
Embedding of `src/utils/llmResponse.ts`.
-/

/-- The `source` tag of a normalized answer (`Normalized.source` in the
source; string enum values rendered as constructor names). -/
inductive AnswerSource where
  | responsesOutputText
  | responsesOutputTextArr
  | responsesOutputAssistantContentText
  | responsesOutputContentText
  | chatChoicesMessage
  | chatChoicesText
  | stringTag
  | jsonStringifyTag
  | unknownTag
deriving Repr, DecidableEq

/-- `Normalized` of `llmResponse.ts`: extracted text plus the shape probe
that produced it. -/
structure Normalized where
  text : String
  source : AnswerSource
deriving Repr, DecidableEq

/-- A successful object-field lookup yields a structurally smaller value. -/
theorem jsize_lookup_lt {fs : List (String × Json)} {k : String} {w : Json}
    (h : fs.lookup k = some w) : jsize w < 1 + jsizeFields fs := by
  induction fs with
  | nil => simp [List.lookup] at h
  | cons p rest ih =>
      obtain ⟨k', v'⟩ := p
      simp only [List.lookup] at h
      split at h
      · cases h
        simp [jsizeFields]
        omega
      · have := ih h
        simp [jsizeFields]
        omega

/-- `getField` yields a structurally smaller value. -/
theorem jsize_getField_lt {v w : Json} {k : String}
    (h : getField v k = some w) : jsize w < jsize v := by
  cases v <;> simp only [getField] at h <;> try cases h
  case obj fs =>
    have := jsize_lookup_lt h
    simp only [jsize]
    omega

/-- The last arm of `visit`: a bare string node contributes itself
(through `pushMaybe`); other nodes contribute nothing. -/
def selfStringKept (node : Json) : List String :=
  match node with
  | .str s => if jsTrim s != "" then [s] else []
  | _ => []

/-- The last arm of the claim's verbatim collection: a bare string node
contributes itself unconditionally. -/
def selfStringVerbatim (node : Json) : List String :=
  match node with
  | .str s => [s]
  | _ => []

/-- The `visit` closure of `joinTextParts`: fragments contributed by one
content node, in order.  `pushMaybe` keeps only fragments whose trim is
non-empty; falsy nodes are skipped; a `text` string field wins over a
`value` string field, which wins over recursion into a nested `content`
array; a bare string node contributes itself.  The fuel bounds the
recursion depth into nested `content` arrays; `jsize` is always
sufficient fuel (`visitCollectF_fuel` below). -/
def visitCollectF : Nat → Json → List String
  | 0, _ => []
  | fuel + 1, node =>
      if jsTruthy node then
        match getField node "text" with
        | some (.str t) => if jsTrim t != "" then [t] else []
        | _ =>
          match getField node "value" with
          | some (.str v) => if jsTrim v != "" then [v] else []
          | _ =>
            match getField node "content" with
            | some (.arr cs) => (cs.map (visitCollectF fuel)).flatten
            | _ => selfStringKept node
      else []

/-- The `visit` closure of `joinTextParts` at its natural fuel. -/
def visitCollect (node : Json) : List String :=
  visitCollectF (jsize node) node

/-- A member of a `content` array reached through `getField` is smaller
than the node that holds it. -/
theorem jsize_content_elem_lt {node : Json} {cs : List Json} {c : Json}
    (h : getField node "content" = some (Json.arr cs)) (hc : c ∈ cs) :
    jsize c < jsize node := by
  have h1 := jsize_getField_lt h
  have h2 := jsize_lt_of_mem hc
  simp only [jsize] at h1
  omega

/-- `visitCollectF` is independent of the fuel once the fuel reaches
`jsize` of the node: the fuel parameter is an artifact of the encoding,
not of the modelled recursion. -/
theorem visitCollectF_fuel :
    ∀ (f1 f2 : Nat) (node : Json), jsize node ≤ f1 → jsize node ≤ f2 →
      visitCollectF f1 node = visitCollectF f2 node := by
  intro f1
  induction f1 with
  | zero =>
      intro f2 node h1 _
      have := jsize_pos node
      omega
  | succ f1 ih =>
      intro f2 node h1 h2
      have hpos := jsize_pos node
      obtain ⟨m, rfl⟩ : ∃ m, f2 = m + 1 := ⟨f2 - 1, by omega⟩
      rw [visitCollectF, visitCollectF]
      by_cases ht : jsTruthy node
      · simp only [ht, if_true]
        rcases hx1 : getField node "text" with _ | w1 <;> [skip; cases w1] <;>
            try rfl
        all_goals
          (rcases hx2 : getField node "value" with _ | w2 <;> [skip; cases w2] <;>
            try rfl)
        all_goals
          (rcases hx3 : getField node "content" with _ | w3 <;> [skip; cases w3] <;>
            try rfl)
        all_goals
          (refine congrArg List.flatten (List.map_congr_left fun c hc => ?_)
           have hlt := jsize_content_elem_lt hx3 hc
           exact ih m c (by omega) (by omega))
      · rw [if_neg ht, if_neg ht]

/-- `joinTextParts`: concatenation (join with `""`) of all collected
fragments of the given content nodes. -/
def joinTextParts (parts : List Json) : String :=
  String.join (parts.map visitCollect).flatten

/-- Test used by `findLastAssistantMessage`: a truthy object whose `role`
is exactly the string `"assistant"`. -/
def isAssistantMsg (m : Json) : Bool :=
  (match m with
   | .obj _ => true
   | .arr _ => true
   | _ => false) &&
  (match getField m "role" with
   | some (.str r) => r == "assistant"
   | _ => false)

/-- `findLastAssistantMessage`: last element with role `"assistant"`
scanning from the end, else the last element (a trailing JS `null`
collapses to no result through the `?? null`). -/
def findLastAssistantMessage (outputArr : List Json) : Option Json :=
  if outputArr.isEmpty then none
  else
    match outputArr.reverse.find? isAssistantMsg with
    | some m => some m
    | none =>
        match outputArr.getLast? with
        | some .null => none
        | some v => some v
        | none => none

/-- Probe (a): a non-blank string `output_text` field. -/
def probeOutputTextStr (obj : Json) : Option Normalized :=
  match getField obj "output_text" with
  | some (.str t) =>
      if jsTrim t != "" then some ⟨t, .responsesOutputText⟩ else none
  | _ => none

/-- Probe (b): `output_text` as a non-empty array; string elements are
kept (non-strings map to `""` and are filtered out) and joined with a
blank line; the probe succeeds only if the join is non-blank. -/
def probeOutputTextArr (obj : Json) : Option Normalized :=
  match getField obj "output_text" with
  | some (.arr xs) =>
      if xs.isEmpty then none
      else
        let joined := joinSep "\n\n"
          ((xs.map fun s => match s with | .str t => t | _ => "").filter
            (fun t => t != ""))
        if jsTrim joined != "" then some ⟨joined, .responsesOutputTextArr⟩
        else none
  | _ => none

/-- First half of probe (c): text collected from the last assistant
message's `content` array, accepted when non-blank. -/
def probeOutputAssistant (out : List Json) : Option Normalized :=
  match findLastAssistantMessage out with
  | some la =>
      match getField la "content" with
      | some (.arr cs) =>
          if cs.isEmpty then none
          else
            let text := joinTextParts cs
            if text != "" && jsTrim text != "" then
              some ⟨text, .responsesOutputAssistantContentText⟩
            else none
      | _ => none
  | none => none

/-- Second half of probe (c): the fallback collection from
`output[0].content`, accepted when non-blank. -/
def probeOutputFirst (out : List Json) : Option Normalized :=
  match out.head? with
  | some first =>
      match getField first "content" with
      | some (.arr fcs) =>
          if fcs.isEmpty then none
          else
            let t2 := joinTextParts fcs
            if t2 != "" && jsTrim t2 != "" then
              some ⟨t2, .responsesOutputContentText⟩
            else none
      | _ => none
  | none => none

/-- Probe (c): non-empty `output` array; text from the last assistant
message's `content`, else from `output[0].content`. -/
def probeOutput (obj : Json) : Option Normalized :=
  match getField obj "output" with
  | some (.arr out) =>
      if out.isEmpty then none
      else
        match probeOutputAssistant out with
        | some n => some n
        | none => probeOutputFirst out
  | _ => none

/-- `choices[0]`, or `undefined` when `choices` is not a (non-empty) array. -/
def choice0 (obj : Json) : Option Json :=
  match getField obj "choices" with
  | some (.arr cs) => cs.head?
  | _ => none

/-- Probe (d): truthy `choices[0].message.content`, coerced by `String()`. -/
def probeChoicesMessage (obj : Json) : Option Normalized :=
  match (choice0 obj).bind (fun c => getField c "message") |>.bind
      (fun m => getField m "content") with
  | some v =>
      if jsTruthy v then some ⟨jsToString v, .chatChoicesMessage⟩ else none
  | none => none

/-- Probe (e): truthy `choices[0].text`, coerced by `String()`. -/
def probeChoicesText (obj : Json) : Option Normalized :=
  match (choice0 obj).bind (fun c => getField c "text") with
  | some v =>
      if jsTruthy v then some ⟨jsToString v, .chatChoicesText⟩ else none
  | none => none

/-- The non-string arm of `normalizeLLMResponse`: the ordered probe
cascade for truthy objects (which in JS includes arrays), and default
string coercion with tag `unknown` for the rest.  The `.str` case is
unreachable from `normalizeLLMResponse` (a JSON document that starts
with a brace or bracket never parses to a string); it is totalized with
the string-branch result. -/
def normalizeNonString (v : Json) : Normalized :=
  match v with
  | .obj _ | .arr _ =>
      match probeOutputTextStr v with
      | some n => n
      | none =>
        match probeOutputTextArr v with
        | some n => n
        | none =>
          match probeOutput v with
          | some n => n
          | none =>
            match probeChoicesMessage v with
            | some n => n
            | none =>
              match probeChoicesText v with
              | some n => n
              | none => ⟨jsonStringify2 v, .jsonStringifyTag⟩
  | .null => ⟨"", .unknownTag⟩
  | .bool b => ⟨jsToString (.bool b), .unknownTag⟩
  | .num n => ⟨jsToString (.num n), .unknownTag⟩
  | .str s => ⟨jsTrim s, .stringTag⟩

/-- `normalizeLLMResponse`: a string that looks like a JSON object/array
is parsed and normalized recursively (parse failure falls back to the
trimmed string); otherwise the probe cascade runs on the value. -/
def normalizeLLMResponse (v : Json) : Normalized :=
  match v with
  | .str s =>
      let trimmed := jsTrim s
      if (jsStartsWith trimmed "\x7b" && jsEndsWith trimmed "\x7d")
          || (jsStartsWith trimmed "[" && jsEndsWith trimmed "]") then
        match jsonParse trimmed with
        | some j => normalizeNonString j
        | none => ⟨trimmed, .stringTag⟩
      else ⟨trimmed, .stringTag⟩
  | w => normalizeNonString w

/-!
Embedding of `src/utils/openai.ts`.
-/

/-- The HTTP response seen by `sendResponsesRequest` after the body has
been read as text (`ok` is derived from the status, as `fetch` does). -/
structure HttpResponse where
  status : Nat
  statusText : String
  body : String

/-- `Response.ok` of `fetch`: status in the 2xx range. -/
def HttpResponse.ok (r : HttpResponse) : Bool :=
  200 ≤ r.status && r.status < 300

/-- The provider error message the non-2xx branch of
`sendResponsesRequest` computes before throwing: `error.message`, else
`message` (JS `??` skips `null`/`undefined`), else `HTTP <status>
<statusText>`.  It is `none` when `JSON.parse` on the body throws (an
empty body short-circuits to `{}` and never throws). -/
def attemptedProviderMessage (res : HttpResponse) : Option String :=
  match (if res.body = "" then some (Json.obj []) else jsonParse res.body) with
  | none => none
  | some errJson =>
      match jsCoalesce ((getField errJson "error").bind
          (fun e => getField e "message")) with
      | some v => some (jsToString v)
      | none =>
          match jsCoalesce (getField errJson "message") with
          | some v => some (jsToString v)
          | none =>
              some ("HTTP " ++ toString res.status ++ " " ++ res.statusText)

/-- The message of the error actually thrown by the `catch` arm of the
non-2xx branch: `OpenAI HTTP <status>: <statusText> :: <first 500 body
chars>`. -/
def notOkFallbackMessage (res : HttpResponse) : String :=
  "OpenAI HTTP " ++ toString res.status ++ ": " ++ res.statusText ++ " :: " ++
    jsTake res.body 500

/-- Outcome classification of `sendResponsesRequest` once the body text
is available.  In the non-2xx branch the source code's `try` block always
ends in a throw — either `JSON.parse` throws, or the block itself does
`throw new Error(msg)` with the provider message — and the surrounding
`catch` intercepts both and replaces them with the synthesized fallback
error, so the provider message computed by `attemptedProviderMessage` is
always discarded.  In the 2xx branch a non-empty body is `JSON.parse`d
(returned raw on parse failure) and an empty body yields `{}`. -/
def sendResponsesRequest (res : HttpResponse) : Except String Json :=
  if res.ok then
    if res.body = "" then .ok (Json.obj [])
    else
      match jsonParse res.body with
      | some j => .ok j
      | none => .ok (Json.str res.body)
  else
    let innerThrow : Except String Json :=
      match attemptedProviderMessage res with
      | some msg => .error msg
      | none => .error "SyntaxError"
    match innerThrow with
    | .ok v => .ok v
    | .error _ => .error (notOkFallbackMessage res)

/-- An embedded file entry of a Responses API request. -/
structure InputFile where
  file_data : String
  filename : String

/-- `buildInput`: user text first, then each well-formed file as an
`input_file` block; a system block is prepended only when the system
text is non-blank. -/
def buildInput (userText : String) (systemText : Option String)
    (files : Option (List InputFile)) : List Json :=
  let contentBlocks : List Json :=
    Json.obj [("type", .str "input_text"), ("text", .str userText)] ::
      (match files with
       | some fs =>
           (fs.filter (fun f => f.file_data != "" && f.filename != "")).map
             (fun f => Json.obj [("type", .str "input_file"),
               ("filename", .str f.filename), ("file_data", .str f.file_data)])
       | none => [])
  let sys : List Json :=
    match systemText with
    | some t =>
        if jsTrim t != "" then
          [Json.obj [("role", .str "system"),
            ("content", .arr [Json.obj [("type", .str "input_text"),
              ("text", .str t)]])]]
        else []
    | none => []
  sys ++ [Json.obj [("role", .str "user"), ("content", .arr contentBlocks)]]

/-- Options of `callOpenAIWithFiles`. -/
structure CallOptions where
  model : Option String := none
  systemPrompt : Option String := none
  max_output_tokens : Option Int := none
  top_p : Option Int := none
  store : Bool := false

/-- Default model identifier of `openai.ts`. -/
def DEFAULT_MODEL : String := "gpt-5"

/-- Default system prompt of `openai.ts`. -/
def DEFAULT_SYSTEM_PROMPT : String :=
  "You are a scientific literature assistant. When answering, cite exact page numbers in parentheses (e.g., p. 3) whenever you rely on the PDF content."

/-- `callOpenAI`: the text-only entry point.  The result is paired with
the number of times the HTTP layer ran (`fetchResult` stands for what
the network returns if it is reached; a network-level throw is its
`error` side).  The guards run before any network activity: an empty
`apiKey` fails first, then a blank prompt. -/
def callOpenAI (userText : Option String) (apiKey : String)
    (fetchResult : Except String HttpResponse) : Except String Json × Nat :=
  if apiKey = "" then (.error "Missing OpenAI API key", 0)
  else
    let textToSend := jsTrim (userText.getD "")
    if textToSend = "" then (.error "Prompt is empty", 0)
    else
      let _body := Json.obj [("model", .str DEFAULT_MODEL),
        ("input", .arr (buildInput textToSend
          (some "You are scientific literature assistant. Summarize the given abstract for a general audience.") none)),
        ("max_output_tokens", .num 2048), ("top_p", .num 1),
        ("store", .bool false)]
      match fetchResult with
      | .error e => (.error e, 1)
      | .ok res => (sendResponsesRequest res, 1)

/-- `callOpenAIWithFiles`: the files-capable entry point, with the same
pre-flight guards in the same order as `callOpenAI`. -/
def callOpenAIWithFiles (userText : Option String) (files : List InputFile)
    (apiKey : String) (opts : CallOptions)
    (fetchResult : Except String HttpResponse) : Except String Json × Nat :=
  if apiKey = "" then (.error "Missing OpenAI API key", 0)
  else
    let textToSend := jsTrim (userText.getD "")
    if textToSend = "" then (.error "Prompt is empty", 0)
    else
      let _body := Json.obj [("model", .str (opts.model.getD DEFAULT_MODEL)),
        ("input", .arr (buildInput textToSend
          (some (opts.systemPrompt.getD DEFAULT_SYSTEM_PROMPT)) (some files))),
        ("max_output_tokens", .num (opts.max_output_tokens.getD 2048)),
        ("top_p", .num (opts.top_p.getD 1)),
        ("store", .bool opts.store)]
      match fetchResult with
      | .error e => (.error e, 1)
      | .ok res => (sendResponsesRequest res, 1)

/-!
Embedding of `src/utils/zoteroFiles.ts` (base64 utilities and the PDF
attachment resolver).
-/

/-- The standard base64 alphabet together with the padding character. -/
def isB64Char (c : Char) : Bool :=
  ('A' ≤ c && c ≤ 'Z') || ('a' ≤ c && c ≤ 'z') || ('0' ≤ c && c ≤ '9') ||
    c = '+' || c = '/' || c = '='

/-- `normalizeBase64`: strip all whitespace and pad with `=` to the next
multiple of four. -/
def normalizeBase64 (raw : String) : String :=
  let s := String.mk (raw.data.filter (fun c => !jsWsChar c))
  let pad := s.length % 4
  if pad ≠ 0 then s ++ String.mk (List.replicate (4 - pad) '=') else s

/-- Drop up to two trailing `=` characters, as the forgiving-base64
decode behind `atob` does when the length is a multiple of four. -/
def dropTrailing2Eq (cs : List Char) : List Char :=
  match cs.reverse with
  | c1 :: c2 :: rest =>
      if c1 = '=' then
        if c2 = '=' then rest.reverse else (c2 :: rest).reverse
      else cs
  | [c1] => if c1 = '=' then [] else cs
  | [] => cs

/-- Success predicate of `atob` (the WHATWG forgiving-base64 decode):
strip ASCII whitespace; if the length is a multiple of four remove up to
two trailing `=`; then the length must not be congruent 1 mod 4 and every
remaining character must be in the base64 alphabet proper. -/
def atobOk (s : String) : Bool :=
  let cs := s.data.filter (fun c => !jsonWs c)
  let cs2 := if cs.length % 4 == 0 then dropTrailing2Eq cs else cs
  cs2.length % 4 != 1 && cs2.all (fun c => isB64Char c && c ≠ '=')

/-- `assertAndExplainBase64`: normalize, reject any character outside the
base64 alphabet, then require `atob` to accept the normalized string.
`ok` is returned where the source returns normally; `error` carries the
thrown message (`atob`'s own exception is rendered as its DOM name). -/
def assertAndExplainBase64 (b64 : String) : Except String Unit :=
  let s := normalizeBase64 b64
  if s.data.any (fun c => !isB64Char c) then
    .error "base64 contains invalid characters"
  else if atobOk s then .ok () else .error "InvalidCharacterError"

/-- `looksLikePdfBase64`: the normalized payload starts with the base64
of the PDF magic bytes. -/
def looksLikePdfBase64 (b64 : String) : Bool :=
  jsStartsWith (normalizeBase64 b64) "JVBER"

/-- `base64PaddingCount`: length of the trailing run of `=`. -/
def base64PaddingCount (b64 : String) : Nat :=
  (b64.data.reverse.takeWhile (fun c => c = '=')).length

/-- `estimateBytesFromBase64Len`: `max(0, floor(len*3/4) - pad)`. -/
def estimateBytesFromBase64Len (len pad : Nat) : Int :=
  max 0 (((len : Int) * 3) / 4 - pad)

/-- A well-formed standard base64 string, per the spec's data-model
invariant: alphabet characters only, length a multiple of four, at most
two `=` and only as a suffix. -/
def isValidBase64 (s : String) : Bool :=
  let cs := s.data
  let body := (cs.reverse.dropWhile (fun c => c = '=')).reverse
  let p := cs.length - body.length
  cs.all isB64Char && cs.length % 4 == 0 && p ≤ 2 &&
    body.all (fun c => c ≠ '=')

/-- `isPdfMime`: case-insensitive equality with `application/pdf` (a
missing MIME type compares as the empty string). -/
def isPdfMime (mime : Option String) : Bool :=
  jsToLower (mime.getD "") == "application/pdf"

/-- The fields of a Zotero item the resolver reads. -/
structure ZItem where
  key : String
  isAttachment : Bool
  mime : Option String

/-- The resolved top-level container of an item: the container item
itself, its formal attachment list (already resolved to items), and its
direct children. -/
structure ZContainer where
  self : ZItem
  attachments : List ZItem
  children : List ZItem

/-- Input context of `findFirstPdfAttachment`: the item it is called on
and the item's resolved top-level container (`none` when the host
returns no top-level item). -/
structure ResolverInput where
  item : ZItem
  top : Option ZContainer

/-- `findFirstPdfAttachment`: the item itself when it is a PDF
attachment; else, unless the container is missing or itself an
attachment, the first PDF in the container's formal attachment list,
else the first PDF among the container's attachment children, else no
candidate. -/
def findFirstPdfAttachment (inp : ResolverInput) : Option ZItem :=
  if inp.item.isAttachment && isPdfMime inp.item.mime then some inp.item
  else
    match inp.top with
    | none => none
    | some top =>
        if top.self.isAttachment then none
        else
          match top.attachments.find? (fun a => isPdfMime a.mime) with
          | some pdf1 => some pdf1
          | none =>
              (top.children.filter (fun c => c.isAttachment)).find?
                (fun a => isPdfMime a.mime)

/-!
Embedding of `src/ui/chatNoteComposer.ts` (the insert action and its
in-flight guard) and of the `Send (PDF)` file preparation in
`src/modules/aiChat.ts`.
-/

/-- Observable state of the Insert button. -/
structure BtnState where
  disabled : Bool
  label : String
deriving Repr, DecidableEq

/-- The module-level mutable state of `chatNoteComposer.ts` that
`onInsertClick` reads and writes. -/
structure ComposerState where
  isInserting : Bool
  insertBtn : Option BtnState
  textarea : Option String
  activeNote : Option Nat
deriving Repr, DecidableEq

/-- Externally visible side effects of one `onInsertClick` run (log lines
are not modelled as effects). -/
inductive UiEffect where
  | notify (msg : String)
  | appendExchange (noteId : Nat) (userText : String) (assistantText : String)
deriving Repr, DecidableEq

/-- Outcomes of the awaited collaborators during one `onInsertClick`
run: the chat note selected at click time, the API key assembled from
preferences, and the results of PDF loading, the LLM call and the note
append (each `error` side is a thrown exception's message). -/
structure InsertEnv where
  selectedNow : Option Nat
  apiKey : String
  pdfResult : Except String (List InputFile)
  llmResult : Except String Json
  appendResult : Except String Unit

/-- The `restoreBtn` helper: re-enable the Insert button and restore its
label, when the button exists. -/
def restoreBtn (b : Option BtnState) : Option BtnState :=
  b.map (fun _ => ⟨false, "Insert to note"⟩)

/-- The `finally` block of `onInsertClick`: restore the button and clear
the in-flight flag. -/
def insertFinally (st : ComposerState) (effs : List UiEffect) :
    ComposerState × List UiEffect :=
  ({st with isInserting := false, insertBtn := restoreBtn st.insertBtn}, effs)

/-- The part of the `onInsertClick` body that runs once a target note is
known: the blank-prompt and missing-key early returns, the PDF load and
LLM call, and the append (whose thrown error is caught by the `catch`
arm); every exit goes through the `finally` block. -/
def onInsertBody (s1 : ComposerState) (taValue : String) (target : Nat)
    (env : InsertEnv) : ComposerState × List UiEffect :=
  let userText := jsTrim taValue
  if userText = "" then
    insertFinally s1 [.notify "Prompt is empty."]
  else
    let s2 := { s1 with
      insertBtn := s1.insertBtn.map (fun _ => ⟨true, "Sending…"⟩) }
    if env.apiKey = "" then
      insertFinally s2
        [.notify "OpenAI API key is missing. Set it in Preferences."]
    else
      let _filesForApi :=
        match env.pdfResult with
        | .ok fs => fs
        | .error _ => []
      let assistantText :=
        match env.llmResult with
        | .ok raw => jsTrim (normalizeLLMResponse raw).text
        | .error e => "⚠️ OpenAI error: " ++ e
      match env.appendResult with
      | .error _ =>
          insertFinally s2 [.notify "Failed to insert (see logs)."]
      | .ok _ =>
          insertFinally { s2 with textarea := some "" }
            [.appendExchange target userText assistantText,
              .notify "Inserted to note."]

/-- `onInsertClick`: re-entrant invocations (in-flight flag set) return
immediately with no effects; otherwise the flag is set, the guarded body
runs (early returns and the `catch` arm included), and the `finally`
block restores the button and clears the flag on every path. -/
def onInsertClick (s0 : ComposerState) (env : InsertEnv) :
    ComposerState × List UiEffect :=
  if s0.isInserting then (s0, [])
  else
    let s := { s0 with isInserting := true }
    match s.textarea with
    | none => insertFinally s []
    | some taValue =>
        let s1 :=
          match env.selectedNow with
          | some sel =>
              if s.activeNote.isNone || s.activeNote ≠ some sel then
                { s with activeNote := some sel }
              else s
          | none => s
        match env.selectedNow.orElse (fun _ => s.activeNote) with
        | none => insertFinally s1 [.notify "Select a chat note first."]
        | some target => onInsertBody s1 taValue target env

/-- The data-URI prefix both PDF-sending paths prepend. -/
def PDF_DATA_URI_PREFIX : String := "data:application/pdf;base64,"

/-- File preparation of `loadPdfFilesForChatNote` in the composer:
coerce a possibly missing payload/filename, prefix the payload with the
PDF data-URI header unless it already starts with `data:`, default the
filename. -/
def composerPrepareFile (file_data filename : Option String) : InputFile :=
  let raw := file_data.getD ""
  let prefixed :=
    if jsStartsWith raw "data:" then raw else PDF_DATA_URI_PREFIX ++ raw
  let fname := if filename.getD "" = "" then "attachment.pdf" else filename.getD ""
  ⟨prefixed, fname⟩

/-- The composer's `files.map(...)` over the resolver's payloads. -/
def loadPdfFilesForChatNoteMap (files : List InputFile) : List InputFile :=
  files.map (fun f => composerPrepareFile (some f.file_data) (some f.filename))

/-- File preparation of the dialog's `Send (PDF)` button in `aiChat.ts`:
prefix the payload with the PDF data-URI header unless it already starts
with `data:`; the filename is kept. -/
def aiChatPrepareFile (f : InputFile) : InputFile :=
  let alreadyData := jsStartsWith f.file_data "data:"
  ⟨if alreadyData then f.file_data else PDF_DATA_URI_PREFIX ++ f.file_data,
    f.filename⟩

/-- The dialog's `files.map(...)` over the resolver's payloads. -/
def aiChatFilesForApi (files : List InputFile) : List InputFile :=
  files.map aiChatPrepareFile

/-!
Specification-side definitions for the `output` probe, written from the
claim's own wording (for comparison with the source embedding above).
-/

/-- The claim's text collection, verbatim: per node prefer a string
`text` field, else a string `value` field, else recurse into a nested
`content` array, else the node itself if it is a string; every fragment
is kept. -/
def specCollectVerbatimF : Nat → Json → List String
  | 0, _ => []
  | fuel + 1, node =>
      match getField node "text" with
      | some (.str t) => [t]
      | _ =>
        match getField node "value" with
        | some (.str v) => [v]
        | _ =>
          match getField node "content" with
          | some (.arr cs) => (cs.map (specCollectVerbatimF fuel)).flatten
          | _ => selfStringVerbatim node

/-- The claim's verbatim text collection at its natural fuel. -/
def specCollectVerbatim (node : Json) : List String :=
  specCollectVerbatimF (jsize node) node

/-- The amended text collection: as the claim describes it, except that
a fragment is kept only when it contains a non-whitespace character. -/
def specCollectFragmentsF : Nat → Json → List String
  | 0, _ => []
  | fuel + 1, node =>
      match getField node "text" with
      | some (.str t) => if jsTrim t != "" then [t] else []
      | _ =>
        match getField node "value" with
        | some (.str v) => if jsTrim v != "" then [v] else []
        | _ =>
          match getField node "content" with
          | some (.arr cs) => (cs.map (specCollectFragmentsF fuel)).flatten
          | _ => selfStringKept node

/-- The amended text collection at its natural fuel. -/
def specCollectFragments (node : Json) : List String :=
  specCollectFragmentsF (jsize node) node

/-- The claim's selection predicate: the element's `role` equals
`"assistant"`. -/
def roleIsAssistant (m : Json) : Bool :=
  match getField m "role" with
  | some (.str r) => r == "assistant"
  | _ => false

/-- The claim's message selection: the last element whose `role` is
`"assistant"`, scanning from the end; else the last element. -/
def specSelectMessage (out : List Json) : Option Json :=
  match out.reverse.find? roleIsAssistant with
  | some m => some m
  | none => out.getLast?

/-- Text collected from a message's `content` array per the amended
claim (empty when there is no message or no `content` array). -/
def specContentText (m : Option Json) : String :=
  match m with
  | some la =>
      match getField la "content" with
      | some (.arr cs) => String.join ((cs.map specCollectFragments).flatten)
      | _ => ""
  | none => ""

/-- The amended claim's primary text: collected from the selected
message's `content`. -/
def specAssistantText (out : List Json) : String :=
  specContentText (specSelectMessage out)

/-- The amended claim's fallback text: collected from `output[0].content`. -/
def specFirstContentText (out : List Json) : String :=
  specContentText out.head?

/-- The source's assistant test agrees with the claim's `role` test on
every value (a `role` field only exists on objects). -/
theorem isAssistantMsg_eq_roleIsAssistant :
    ∀ m, isAssistantMsg m = roleIsAssistant m := by
  intro m
  cases m <;> simp [isAssistantMsg, roleIsAssistant, getField]


/-- The source's collector and the amended claim's collector agree at
every fuel: the source's extra skip of falsy nodes never changes the
result, because each falsy node contributes nothing on both sides. -/
theorem visitCollectF_eq_specCollectFragmentsF :
    ∀ (fuel : Nat) (node : Json),
      visitCollectF fuel node = specCollectFragmentsF fuel node := by
  intro fuel
  induction fuel with
  | zero => intro node; rfl
  | succ fuel ih =>
      intro node
      rw [visitCollectF, specCollectFragmentsF]
      by_cases ht : jsTruthy node
      · rw [if_pos ht]
        rcases hx1 : getField node "text" with _ | w1 <;> [skip; cases w1] <;>
            try rfl
        all_goals
          (rcases hx2 : getField node "value" with _ | w2 <;> [skip; cases w2] <;>
            try rfl)
        all_goals
          (rcases hx3 : getField node "content" with _ | w3 <;> [skip; cases w3] <;>
            try rfl)
        all_goals
          exact congrArg List.flatten (List.map_congr_left fun c _ => ih c)
      · rw [if_neg ht]
        cases node with
        | null => rfl
        | bool b =>
            simp only [jsTruthy, Bool.not_eq_true] at ht
            subst ht; rfl
        | num n =>
            simp only [jsTruthy, Bool.not_eq_true, bne_eq_false_iff_eq] at ht
            subst ht; rfl
        | str s =>
            simp only [jsTruthy, Bool.not_eq_true, bne_eq_false_iff_eq] at ht
            subst ht; rfl
        | arr xs => simp [jsTruthy] at ht
        | obj fs => simp [jsTruthy] at ht

/-- Wrapper form of the collector agreement. -/
theorem visitCollect_eq_specCollectFragments (node : Json) :
    visitCollect node = specCollectFragments node :=
  visitCollectF_eq_specCollectFragmentsF (jsize node) node

/-- `joinTextParts` computes exactly the amended claim's concatenation of
collected fragments. -/
theorem joinTextParts_eq_spec (cs : List Json) :
    joinTextParts cs = String.join ((cs.map specCollectFragments).flatten) := by
  unfold joinTextParts
  rw [List.map_congr_left fun c _ => visitCollect_eq_specCollectFragments c]

/-- Relation between the source's message selection and the claim's:
they agree except that the source collapses a selected trailing JS
`null`, which the claim-side text extraction also treats as empty. -/
theorem findLast_vs_specSelect (out : List Json) (hne : out.isEmpty = false) :
    (findLastAssistantMessage out = none → specSelectMessage out = some Json.null) ∧
    (∀ la, findLastAssistantMessage out = some la →
      specSelectMessage out = some la) := by
  have hpred : isAssistantMsg = roleIsAssistant :=
    funext isAssistantMsg_eq_roleIsAssistant
  simp only [findLastAssistantMessage, specSelectMessage, hne, hpred,
    Bool.false_eq_true, if_false]
  cases hf : out.reverse.find? roleIsAssistant with
  | some m => exact ⟨fun h => by simp_all, fun la hla => by simp_all⟩
  | none =>
      cases hl : out.getLast? with
      | none =>
          rw [List.getLast?_eq_none_iff] at hl
          subst hl
          simp at hne
      | some v =>
          cases v <;>
            exact ⟨fun h => by simp_all, fun la hla => by simp_all⟩

/-- The assistant half of probe (c) succeeds exactly when the amended
claim's primary text is non-blank, and then returns exactly that text. -/
theorem probeOutputAssistant_spec (out : List Json) (hempty : out.isEmpty = false) :
    probeOutputAssistant out =
      (if jsTrim (specAssistantText out) != "" then
        some ⟨specAssistantText out, .responsesOutputAssistantContentText⟩
      else none) := by
  have hsel := findLast_vs_specSelect out hempty
  unfold probeOutputAssistant
  rcases hfl : findLastAssistantMessage out with _ | la
  · have h0 := hsel.1 hfl
    have hT : specAssistantText out = "" := by
      unfold specAssistantText
      rw [h0]
      rfl
    rw [hT]
    rfl
  · have h0 := hsel.2 la hfl
    have hT : specAssistantText out = specContentText (some la) := by
      unfold specAssistantText
      rw [h0]
    rw [hT]
    rcases hc : getField la "content" with _ | w
    · simp only [specContentText, hc]
      rfl
    · cases w with
      | arr cs =>
          simp only [specContentText, hc]
          rw [← joinTextParts_eq_spec]
          cases cs with
          | nil => rfl
          | cons c cs' =>
              simp only [List.isEmpty_cons, Bool.false_eq_true, if_false]
              by_cases hJ : jsTrim (joinTextParts (c :: cs')) = ""
              · simp [hJ]
              · have hne' : joinTextParts (c :: cs') ≠ "" := by
                  intro h
                  apply hJ
                  rw [h]
                  rfl
                simp [hJ, hne']
      | null => simp only [specContentText, hc]; rfl
      | bool b => simp only [specContentText, hc]; rfl
      | num n => simp only [specContentText, hc]; rfl
      | str s => simp only [specContentText, hc]; rfl
      | obj gs => simp only [specContentText, hc]; rfl

/-- The fallback half of probe (c) succeeds exactly when the amended
claim's fallback text is non-blank, and then returns exactly that text. -/
theorem probeOutputFirst_spec (out : List Json) :
    probeOutputFirst out =
      (if jsTrim (specFirstContentText out) != "" then
        some ⟨specFirstContentText out, .responsesOutputContentText⟩
      else none) := by
  unfold probeOutputFirst specFirstContentText
  rcases hh : out.head? with _ | first
  · rfl
  · rcases hc : getField first "content" with _ | w
    · simp only [specContentText, hc]
      rfl
    · cases w with
      | arr cs =>
          simp only [specContentText, hc]
          rw [← joinTextParts_eq_spec]
          cases cs with
          | nil => rfl
          | cons c cs' =>
              simp only [List.isEmpty_cons, Bool.false_eq_true, if_false]
              by_cases hJ : jsTrim (joinTextParts (c :: cs')) = ""
              · simp [hJ]
              · have hne' : joinTextParts (c :: cs') ≠ "" := by
                  intro h
                  apply hJ
                  rw [h]
                  rfl
                simp [hJ, hne']
      | null => simp only [specContentText, hc]; rfl
      | bool b => simp only [specContentText, hc]; rfl
      | num n => simp only [specContentText, hc]; rfl
      | str s => simp only [specContentText, hc]; rfl
      | obj gs => simp only [specContentText, hc]; rfl

/-- C3 (amended): for an object whose `output` field is a non-empty
array (and on which the earlier `output_text` probes do not fire), the
normalizer selects the last element whose `role` is `"assistant"`
(scanning from the end; the last element regardless if none has that
role), recursively collects text from its `content` array — per node
preferring a string `text` field, else a string `value` field, else
recursing into a nested `content` array, else the node itself when it is
a string, keeping only fragments that contain a non-whitespace
character — concatenates the kept fragments in order, and returns that
text with tag `responses.output.assistant.content.text` when it is
non-blank; when it is blank, it retries the same collection on
`output[0].content` and returns that with tag
`responses.output.content.text` when non-blank. -/
theorem c3_output_probe (fs : List (String × Json)) (out : List Json)
    (h1 : probeOutputTextStr (Json.obj fs) = none)
    (h2 : probeOutputTextArr (Json.obj fs) = none)
    (hout : getField (Json.obj fs) "output" = some (Json.arr out))
    (hne : out ≠ []) :
    (jsTrim (specAssistantText out) ≠ "" →
      normalizeLLMResponse (Json.obj fs) =
        ⟨specAssistantText out, .responsesOutputAssistantContentText⟩) ∧
    (jsTrim (specAssistantText out) = "" →
      jsTrim (specFirstContentText out) ≠ "" →
      normalizeLLMResponse (Json.obj fs) =
        ⟨specFirstContentText out, .responsesOutputContentText⟩) := by
  have hempty : out.isEmpty = false := by
    cases out with
    | nil => exact absurd rfl hne
    | cons a l => rfl
  constructor
  · intro ht1
    have hp : probeOutput (Json.obj fs) =
        some ⟨specAssistantText out, .responsesOutputAssistantContentText⟩ := by
      unfold probeOutput
      rw [hout]
      simp only [hempty, Bool.false_eq_true, if_false,
        probeOutputAssistant_spec out hempty]
      simp [ht1]
    show normalizeNonString (Json.obj fs) = _
    simp [normalizeNonString, h1, h2, hp]
  · intro ht1 ht2
    have hp : probeOutput (Json.obj fs) =
        some ⟨specFirstContentText out, .responsesOutputContentText⟩ := by
      unfold probeOutput
      rw [hout]
      simp only [hempty, Bool.false_eq_true, if_false,
        probeOutputAssistant_spec out hempty, probeOutputFirst_spec out]
      simp [ht1, ht2]
    show normalizeNonString (Json.obj fs) = _
    simp [normalizeNonString, h1, h2, hp]

/-- Witness for C3 (amended) at a concrete response object. -/
theorem c3_output_probe_witness :
    normalizeLLMResponse (Json.obj [("output", Json.arr
        [Json.obj [("role", Json.str "assistant"),
          ("content", Json.arr [Json.obj [("text", Json.str "hi")]])]])]) =
      ⟨"hi", .responsesOutputAssistantContentText⟩ :=
  (c3_output_probe
    [("output", Json.arr
      [Json.obj [("role", Json.str "assistant"),
        ("content", Json.arr [Json.obj [("text", Json.str "hi")]])]])]
    [Json.obj [("role", Json.str "assistant"),
      ("content", Json.arr [Json.obj [("text", Json.str "hi")]])]]
    (by decide) (by decide) rfl (List.cons_ne_nil _ _)).1 (by decide)

/-- C3 counterexample: as literally stated the claim fails — on a
content array `[{text: "  "}, {text: "a"}]` the claim's verbatim
collection concatenates to `"  a"`, but the normalizer drops the
whitespace-only fragment and returns `"a"`. -/
theorem c3_counterexample :
    normalizeLLMResponse (Json.obj [("output", Json.arr
        [Json.obj [("role", Json.str "assistant"),
          ("content", Json.arr [Json.obj [("text", Json.str "  ")],
            Json.obj [("text", Json.str "a")]])]])]) =
      ⟨"a", .responsesOutputAssistantContentText⟩ ∧
    specSelectMessage
        [Json.obj [("role", Json.str "assistant"),
          ("content", Json.arr [Json.obj [("text", Json.str "  ")],
            Json.obj [("text", Json.str "a")]])]] =
      some (Json.obj [("role", Json.str "assistant"),
        ("content", Json.arr [Json.obj [("text", Json.str "  ")],
          Json.obj [("text", Json.str "a")]])]) ∧
    String.join (([Json.obj [("text", Json.str "  ")],
        Json.obj [("text", Json.str "a")]].map specCollectVerbatim).flatten) =
      "  a" ∧
    ("a" : String) ≠ "  a" := by
  refine ⟨by decide, ?_, by decide, by decide⟩
  rfl

/-- C4: the five normalization round-trips — a string `output_text`
field passes through with tag `responses.output_text`; a string wrapping
JSON is parsed and normalized recursively; `choices[0].message.content`
is stringified with tag `chat.choices.message`; an unrecognized object
is pretty-printed as 2-space-indented JSON with tag `json-stringify`;
and a plain string is returned as-is with tag `string`. -/
theorem c4_normalization_roundtrips :
    normalizeLLMResponse (Json.obj [("output_text", Json.str "hello")]) =
      ⟨"hello", .responsesOutputText⟩ ∧
    (normalizeLLMResponse (Json.str "\x7b\"output_text\":\"hi\"\x7d")).text = "hi" ∧
    normalizeLLMResponse (Json.obj [("choices", Json.arr
        [Json.obj [("message", Json.obj [("content", Json.str "x")])]])]) =
      ⟨"x", .chatChoicesMessage⟩ ∧
    normalizeLLMResponse (Json.obj [("foo", Json.num 1)]) =
      ⟨"\x7b\n  \"foo\": 1\n\x7d", .jsonStringifyTag⟩ ∧
    normalizeLLMResponse (Json.str "plain text") = ⟨"plain text", .stringTag⟩ := by
  refine ⟨by decide, ?_, by decide, by decide, by decide⟩
  decide

/-!
Exception-aware mirror of the normalizer, for the no-throw property:
every operation of the source that can throw is made explicit in the
`Except` layer, and the source's single `try`/`catch` is translated
literally.
-/

/-- `JSON.parse` with its thrown `SyntaxError` made explicit. -/
def jsonParseE (s : String) : Except String Json :=
  match jsonParse s with
  | some j => .ok j
  | none => .error "SyntaxError: Unexpected token"

/-- `JSON.stringify(v, null, 2)` with its exception side made explicit.
Within the acyclic `Json` universe stringify cannot throw (the JS
exceptions require a cyclic object or a BigInt, neither representable
here), so this is total. -/
def stringifyE (v : Json) : Except String String :=
  .ok (jsonStringify2 v)

/-- The non-string arm of the normalizer with exceptions made explicit:
the only operation of this arm that could throw in JS is the final
`JSON.stringify` (which the source does not guard with any `try`). -/
def normalizeNonStringE (v : Json) : Except String Normalized :=
  match v with
  | .obj _ | .arr _ =>
      match probeOutputTextStr v with
      | some n => .ok n
      | none =>
        match probeOutputTextArr v with
        | some n => .ok n
        | none =>
          match probeOutput v with
          | some n => .ok n
          | none =>
            match probeChoicesMessage v with
            | some n => .ok n
            | none =>
              match probeChoicesText v with
              | some n => .ok n
              | none =>
                  match stringifyE v with
                  | .ok s => .ok ⟨s, .jsonStringifyTag⟩
                  | .error e => .error e
  | .null => .ok ⟨"", .unknownTag⟩
  | .bool b => .ok ⟨jsToString (.bool b), .unknownTag⟩
  | .num n => .ok ⟨jsToString (.num n), .unknownTag⟩
  | .str s => .ok ⟨jsTrim s, .stringTag⟩

/-- `normalizeLLMResponse` with exceptions made explicit: the
`try`/`catch` of the string branch intercepts a parse failure (and any
error of the recursive normalization) and falls back to the trimmed
string. -/
def normalizeLLMResponseE (v : Json) : Except String Normalized :=
  match v with
  | .str s =>
      let trimmed := jsTrim s
      if (jsStartsWith trimmed "\x7b" && jsEndsWith trimmed "\x7d")
          || (jsStartsWith trimmed "[" && jsEndsWith trimmed "]") then
        match (jsonParseE trimmed).bind normalizeNonStringE with
        | .ok n => .ok n
        | .error _ => .ok ⟨trimmed, .stringTag⟩
      else .ok ⟨trimmed, .stringTag⟩
  | w => normalizeNonStringE w

/-- The exception-aware non-string arm never fails and agrees with the
pure embedding. -/
theorem normalizeNonStringE_ok (v : Json) :
    normalizeNonStringE v = .ok (normalizeNonString v) := by
  cases v <;> try rfl
  case obj fs =>
    simp only [normalizeNonStringE, normalizeNonString, stringifyE]
    rcases probeOutputTextStr (Json.obj fs) with _ | n <;> try rfl
    rcases probeOutputTextArr (Json.obj fs) with _ | n <;> try rfl
    rcases probeOutput (Json.obj fs) with _ | n <;> try rfl
    rcases probeChoicesMessage (Json.obj fs) with _ | n <;> try rfl
    rcases probeChoicesText (Json.obj fs) with _ | n <;> rfl

/-- C8: the normalizer is total — for every JSON-like input value the
exception-aware mirror of `normalizeLLMResponse` succeeds, returning the
`Normalized` answer of the pure embedding (internal parse failures
degrade through the `catch` to the `string` fallback instead of
propagating). -/
theorem c8_normalizer_never_throws (v : Json) :
    normalizeLLMResponseE v = .ok (normalizeLLMResponse v) := by
  cases v with
  | null => rfl
  | bool b => rfl
  | num n => rfl
  | arr xs => exact normalizeNonStringE_ok (Json.arr xs)
  | obj fs => exact normalizeNonStringE_ok (Json.obj fs)
  | str s =>
    simp only [normalizeLLMResponseE, normalizeLLMResponse]
    split
    · rcases hp : jsonParse (jsTrim s) with _ | j
      · simp [jsonParseE, hp, Except.bind]
      · simp [jsonParseE, hp, Except.bind, normalizeNonStringE_ok j]
    · rfl

/-- C1 (code bug): on a non-2xx response whose body carries a provider
error message, the code computes the provider message (`"bad key"`) but
throws it inside its own `try`, so the `catch` replaces it and `send`
fails with the synthesized `OpenAI HTTP <status>: <statusText> :: <body>`
message instead of the provider-supplied string the claim requires. -/
theorem c1_provider_message_swallowed :
    sendResponsesRequest
        ⟨401, "Unauthorized", "\x7b\"error\":\x7b\"message\":\"bad key\"\x7d\x7d"⟩ =
      .error "OpenAI HTTP 401: Unauthorized :: \x7b\"error\":\x7b\"message\":\"bad key\"\x7d\x7d" ∧
    attemptedProviderMessage
        ⟨401, "Unauthorized", "\x7b\"error\":\x7b\"message\":\"bad key\"\x7d\x7d"⟩ =
      some "bad key" ∧
    ("OpenAI HTTP 401: Unauthorized :: \x7b\"error\":\x7b\"message\":\"bad key\"\x7d\x7d" : String)
      ≠ "bad key" :=
  ⟨rfl, rfl, by decide⟩

/-- C2: both entry points fail fast before any network activity — with
the missing-key error when `apiKey` is empty (this check comes first),
and with the empty-prompt error when the key is present but the user
text trims to the empty string; in each case the HTTP layer runs zero
times. -/
theorem c2_preflight_guards (userText : Option String) (files : List InputFile)
    (opts : CallOptions) (apiKey : String) (net : Except String HttpResponse) :
    (apiKey = "" →
      callOpenAI userText apiKey net = (.error "Missing OpenAI API key", 0) ∧
      callOpenAIWithFiles userText files apiKey opts net =
        (.error "Missing OpenAI API key", 0)) ∧
    (apiKey ≠ "" → jsTrim (userText.getD "") = "" →
      callOpenAI userText apiKey net = (.error "Prompt is empty", 0) ∧
      callOpenAIWithFiles userText files apiKey opts net =
        (.error "Prompt is empty", 0)) := by
  constructor
  · intro h
    subst h
    exact ⟨rfl, rfl⟩
  · intro hk ht
    unfold callOpenAI callOpenAIWithFiles
    rw [if_neg hk]
    simp [ht]

/-- Witness for C2: an empty key fails with the auth error at zero
network calls; a present key with a blank prompt fails with the
validation error at zero network calls. -/
theorem c2_preflight_guards_witness :
    callOpenAI (some "hello") "" (.ok ⟨200, "OK", ""⟩) =
      (.error "Missing OpenAI API key", 0) ∧
    callOpenAIWithFiles (some "  ") [] "sk-x" {} (.ok ⟨200, "OK", ""⟩) =
      (.error "Prompt is empty", 0) :=
  ⟨((c2_preflight_guards (some "hello") [] {} "" (.ok ⟨200, "OK", ""⟩)).1 rfl).1,
   ((c2_preflight_guards (some "  ") [] {} "sk-x" (.ok ⟨200, "OK", ""⟩)).2
      (by decide) (by decide)).2⟩

/-- C5 counterexample: a 2xx response with an empty body returns the
empty object without attempting `JSON.parse` at all — even though
`JSON.parse("")` fails, the raw body text (`""`) is not what is
returned, contradicting the claim's "parse failure returns the raw body
text unchanged" for this input. -/
theorem c5_counterexample :
    HttpResponse.ok ⟨200, "OK", ""⟩ = true ∧
    jsonParse "" = none ∧
    sendResponsesRequest ⟨200, "OK", ""⟩ = .ok (Json.obj []) ∧
    Json.obj [] ≠ Json.str "" :=
  ⟨rfl, rfl, rfl, fun h => Json.noConfusion h⟩

/-- C5 (amended): for every 2xx response with a non-empty body, `send`
attempts `JSON.parse` and returns the parsed value on success and the
raw body text unchanged on failure; a 2xx response with an empty body
short-circuits to the empty object without a parse attempt. -/
theorem c5_ok_body_classification (res : HttpResponse) (hok : res.ok = true) :
    (res.body ≠ "" →
      sendResponsesRequest res =
        (match jsonParse res.body with
         | some j => .ok j
         | none => .ok (Json.str res.body))) ∧
    (res.body = "" → sendResponsesRequest res = .ok (Json.obj [])) := by
  constructor
  · intro hb
    simp [sendResponsesRequest, hok, hb]
  · intro hb
    simp [sendResponsesRequest, hok, hb]

/-- Witness for C5 (amended): a parsed JSON body, an unparseable body
returned raw, and the empty-body case. -/
theorem c5_ok_body_classification_witness :
    sendResponsesRequest ⟨200, "OK", "[1]"⟩ = .ok (Json.arr [Json.num 1]) ∧
    sendResponsesRequest ⟨200, "OK", "x"⟩ = .ok (Json.str "x") ∧
    sendResponsesRequest ⟨204, "No Content", ""⟩ = .ok (Json.obj []) :=
  ⟨((c5_ok_body_classification ⟨200, "OK", "[1]"⟩ rfl).1 (by decide)).trans rfl,
   ((c5_ok_body_classification ⟨200, "OK", "x"⟩ rfl).1 (by decide)).trans rfl,
   (c5_ok_body_classification ⟨204, "No Content", ""⟩ rfl).2 rfl⟩

/-- C7: the resolver's priority order — a PDF attachment item is used
directly; otherwise, when the top container exists and is not itself an
attachment, the result is the first PDF of the formal attachment list,
else the first PDF among the attachment children; the claim's two
concrete cases follow — the container with attachments
`[text/plain, application/pdf(key X)]` yields the attachment keyed `X`,
and the container with no attachments and no children yields no
candidate. -/
theorem c7_resolver_priority :
    (∀ inp : ResolverInput,
      (inp.item.isAttachment && isPdfMime inp.item.mime) = true →
        findFirstPdfAttachment inp = some inp.item) ∧
    (∀ (inp : ResolverInput) (top : ZContainer),
      (inp.item.isAttachment && isPdfMime inp.item.mime) = false →
      inp.top = some top → top.self.isAttachment = false →
        findFirstPdfAttachment inp =
          (top.attachments.find? fun a => isPdfMime a.mime).orElse
            (fun _ => (top.children.filter fun c => c.isAttachment).find?
              fun a => isPdfMime a.mime)) ∧
    findFirstPdfAttachment
        ⟨⟨"parent", false, none⟩,
          some ⟨⟨"parent", false, none⟩,
            [⟨"T", true, some "text/plain"⟩, ⟨"X", true, some "application/pdf"⟩],
            []⟩⟩ =
      some ⟨"X", true, some "application/pdf"⟩ ∧
    findFirstPdfAttachment
        ⟨⟨"parent", false, none⟩, some ⟨⟨"parent", false, none⟩, [], []⟩⟩ =
      none := by
  refine ⟨?_, ?_, rfl, rfl⟩
  · intro inp h
    simp [findFirstPdfAttachment, h]
  · intro inp top hnotself htop hatt
    simp only [findFirstPdfAttachment, hnotself, htop, hatt,
      Bool.false_eq_true, if_false]
    rcases hf : top.attachments.find? (fun a => isPdfMime a.mime) with _ | p <;>
      simp [Option.orElse, hf]

/-- Witness for C7 at concrete inputs: an item that is itself a PDF
attachment (uppercase MIME) resolves to itself, and a container whose
formal attachment list is empty falls back to the first PDF among its
attachment children. -/
theorem c7_resolver_priority_witness :
    findFirstPdfAttachment ⟨⟨"self", true, some "APPLICATION/PDF"⟩, none⟩ =
      some ⟨"self", true, some "APPLICATION/PDF"⟩ ∧
    findFirstPdfAttachment
        ⟨⟨"p", false, none⟩,
          some ⟨⟨"p", false, none⟩, [],
            [⟨"n", false, some "application/pdf"⟩,
              ⟨"c", true, some "application/pdf"⟩]⟩⟩ =
      some ⟨"c", true, some "application/pdf"⟩ :=
  ⟨c7_resolver_priority.1 ⟨⟨"self", true, some "APPLICATION/PDF"⟩, none⟩ (by decide),
   (c7_resolver_priority.2.1
      ⟨⟨"p", false, none⟩,
        some ⟨⟨"p", false, none⟩, [],
          [⟨"n", false, some "application/pdf"⟩,
            ⟨"c", true, some "application/pdf"⟩]⟩⟩
      ⟨⟨"p", false, none⟩, [],
        [⟨"n", false, some "application/pdf"⟩,
          ⟨"c", true, some "application/pdf"⟩]⟩
      (by decide) rfl (by decide)).trans rfl⟩

/-- Every completion of the `onInsertClick` body runs through the
`finally` block, which clears the flag and re-enables the button. -/
theorem insertFinally_restores (st : ComposerState) (effs : List UiEffect) :
    (insertFinally st effs).1.isInserting = false ∧
    (match (insertFinally st effs).1.insertBtn with
     | some b => b.disabled = false
     | none => True) := by
  refine ⟨rfl, ?_⟩
  rcases hb : st.insertBtn with _ | b <;> simp [insertFinally, restoreBtn, hb]

/-- Every non-re-entrant run of `onInsertClick` ends in the `finally`
block, whatever the environment outcomes are. -/
theorem onInsertClick_shape (s : ComposerState) (env : InsertEnv)
    (h : s.isInserting = false) :
    ∃ st effs, onInsertClick s env = insertFinally st effs := by
  obtain ⟨flag, btn, ta, an⟩ := s
  simp only at h
  subst h
  obtain ⟨sel, key, pdfR, llmR, appR⟩ := env
  have hbody : ∀ (s1 : ComposerState) (taValue : String) (target : Nat),
      ∃ st effs,
        onInsertBody s1 taValue target ⟨sel, key, pdfR, llmR, appR⟩ =
          insertFinally st effs := by
    intro s1 taValue target
    unfold onInsertBody
    dsimp only
    split_ifs with h1 h2
    · exact ⟨_, _, rfl⟩
    · exact ⟨_, _, rfl⟩
    · cases appR with
      | error e => exact ⟨_, _, rfl⟩
      | ok u => exact ⟨_, _, rfl⟩
  unfold onInsertClick
  rw [if_neg (by simp)]
  cases ta with
  | none => exact ⟨_, _, rfl⟩
  | some taValue =>
      cases sel with
      | some s' => exact hbody _ _ _
      | none =>
          cases an with
          | none => exact ⟨_, _, rfl⟩
          | some a => exact hbody _ _ _

/-- C9: the in-flight-flag invariant of the composer's insert action —
while a request is outstanding every re-entrant invocation returns
immediately with the state unchanged and no side effects; and on every
completion path (success, early validation bail-out, or thrown error,
whatever the environment outcomes) the flag is cleared and the Insert
button, when it exists, is left enabled. -/
theorem c9_inflight_guard (s : ComposerState) (env : InsertEnv) :
    (s.isInserting = true → onInsertClick s env = (s, [])) ∧
    (s.isInserting = false →
      (onInsertClick s env).1.isInserting = false ∧
      (match (onInsertClick s env).1.insertBtn with
       | some b => b.disabled = false
       | none => True)) := by
  constructor
  · intro h
    unfold onInsertClick
    rw [if_pos h]
  · intro h
    obtain ⟨st, effs, heq⟩ := onInsertClick_shape s env h
    rw [heq]
    exact insertFinally_restores st effs

/-- Witness for C9: a concrete re-entrant click is a no-op, and a
concrete successful run leaves the flag cleared and the button enabled. -/
theorem c9_inflight_guard_witness :
    onInsertClick ⟨true, some ⟨true, "Sending…"⟩, some "hello", some 7⟩
        ⟨some 7, "sk-k", .ok [], .ok (Json.str "answer"), .ok ()⟩ =
      (⟨true, some ⟨true, "Sending…"⟩, some "hello", some 7⟩, []) ∧
    ((onInsertClick ⟨false, some ⟨false, "Insert to note"⟩, some "hello", some 7⟩
        ⟨some 7, "sk-k", .ok [], .ok (Json.str "answer"), .ok ()⟩).1.isInserting = false ∧
      (match (onInsertClick ⟨false, some ⟨false, "Insert to note"⟩, some "hello", some 7⟩
          ⟨some 7, "sk-k", .ok [], .ok (Json.str "answer"), .ok ()⟩).1.insertBtn with
       | some b => b.disabled = false
       | none => True)) :=
  ⟨(c9_inflight_guard ⟨true, some ⟨true, "Sending…"⟩, some "hello", some 7⟩
      ⟨some 7, "sk-k", .ok [], .ok (Json.str "answer"), .ok ()⟩).1 rfl,
   (c9_inflight_guard ⟨false, some ⟨false, "Insert to note"⟩, some "hello", some 7⟩
      ⟨some 7, "sk-k", .ok [], .ok (Json.str "answer"), .ok ()⟩).2 rfl⟩

/-- A string with the PDF data-URI header prepended starts with `data:`. -/
theorem startsWith_pdf_prefix (raw : String) :
    jsStartsWith (PDF_DATA_URI_PREFIX ++ raw) "data:" = true := by
  obtain ⟨cs⟩ := raw
  show ("data:".data.isPrefixOf ("data:".data ++ ("application/pdf;base64,".data ++ cs))) = true
  rw [List.isPrefixOf_iff_prefix]
  exact List.prefix_append _ _

/-- C10: both PDF-sending paths rewrite each resolver payload so that
`file_data` becomes the payload prefixed with the literal
`data:application/pdf;base64,` header, left unchanged only when it
already starts with `data:`; consequently every `file_data` in the lists
handed to `callOpenAIWithFiles` is a data-URI (starts with `data:`),
not the bare base64. -/
theorem c10_data_uri_rewrite :
    (∀ fd fn : Option String,
      (composerPrepareFile fd fn).file_data =
        (if jsStartsWith (fd.getD "") "data:" then fd.getD ""
         else PDF_DATA_URI_PREFIX ++ fd.getD "") ∧
      jsStartsWith (composerPrepareFile fd fn).file_data "data:" = true) ∧
    (∀ f : InputFile,
      (aiChatPrepareFile f).file_data =
        (if jsStartsWith f.file_data "data:" then f.file_data
         else PDF_DATA_URI_PREFIX ++ f.file_data) ∧
      (aiChatPrepareFile f).filename = f.filename ∧
      jsStartsWith (aiChatPrepareFile f).file_data "data:" = true) ∧
    (∀ files : List InputFile,
      ((loadPdfFilesForChatNoteMap files).all fun g =>
          jsStartsWith g.file_data "data:") = true ∧
      ((aiChatFilesForApi files).all fun g =>
          jsStartsWith g.file_data "data:") = true) := by
  have hcomposer : ∀ fd fn : Option String,
      jsStartsWith (composerPrepareFile fd fn).file_data "data:" = true := by
    intro fd fn
    by_cases h : jsStartsWith (fd.getD "") "data:" = true
    · simp [composerPrepareFile, h]
    · simp only [composerPrepareFile, Bool.not_eq_true] at h ⊢
      rw [h]
      simpa using startsWith_pdf_prefix (fd.getD "")
  have haichat : ∀ f : InputFile,
      jsStartsWith (aiChatPrepareFile f).file_data "data:" = true := by
    intro f
    by_cases h : jsStartsWith f.file_data "data:" = true
    · simp [aiChatPrepareFile, h]
    · simp only [aiChatPrepareFile, Bool.not_eq_true] at h ⊢
      rw [h]
      simpa using startsWith_pdf_prefix f.file_data
  refine ⟨fun fd fn => ⟨?_, hcomposer fd fn⟩,
    fun f => ⟨?_, rfl, haichat f⟩, fun files => ⟨?_, ?_⟩⟩
  · by_cases h : jsStartsWith (fd.getD "") "data:" = true <;>
      simp [composerPrepareFile, h]
  · by_cases h : jsStartsWith f.file_data "data:" = true <;>
      simp [aiChatPrepareFile, h]
  · rw [List.all_eq_true]
    intro g hg
    obtain ⟨f, _, rfl⟩ := List.mem_map.mp hg
    exact hcomposer (some f.file_data) (some f.filename)
  · rw [List.all_eq_true]
    intro g hg
    obtain ⟨f, _, rfl⟩ := List.mem_map.mp hg
    exact haichat f

/-- Base64-alphabet characters are not JS whitespace. -/
theorem not_jsWs_of_b64 (c : Char) (h : isB64Char c = true) :
    jsWsChar c = false := by
  by_contra hws
  simp only [Bool.not_eq_false, jsWsChar, Bool.or_eq_true, decide_eq_true_eq] at hws
  rcases hws with ((((rfl | rfl) | rfl) | rfl) | rfl) | rfl <;>
    exact absurd h (by decide)

/-- Base64-alphabet characters are not JSON/`atob` whitespace. -/
theorem not_jsonWs_of_b64 (c : Char) (h : isB64Char c = true) :
    jsonWs c = false := by
  by_contra hws
  simp only [Bool.not_eq_false, jsonWs, Bool.or_eq_true, decide_eq_true_eq] at hws
  rcases hws with ((rfl | rfl) | rfl) | rfl <;> exact absurd h (by decide)

/-- Removing up to two trailing `=` from a string that is `body` plus at
most two `=` of padding, where `body` itself contains no `=`, recovers
`body`. -/
theorem dropTrailing2Eq_append (body : List Char) (p : Nat) (hp : p ≤ 2)
    (hb : ∀ c ∈ body, c ≠ '=') :
    dropTrailing2Eq (body ++ List.replicate p '=') = body := by
  interval_cases p
  · rw [List.replicate_zero, List.append_nil]
    unfold dropTrailing2Eq
    rcases hr : body.reverse with _ | ⟨a, tail⟩
    · rfl
    · have ha : a ≠ '=' := by
        refine hb a ?_
        rw [← List.mem_reverse, hr]
        exact List.mem_cons_self _ _
      cases tail with
      | nil => simp [ha]
      | cons b t2 => simp [ha]
  · unfold dropTrailing2Eq
    have hrev : (body ++ List.replicate 1 '=').reverse = '=' :: body.reverse := by
      simp
    rw [hrev]
    rcases hr : body.reverse with _ | ⟨a, tail⟩
    · rw [List.reverse_eq_nil_iff] at hr
      subst hr
      rfl
    · have ha : a ≠ '=' := by
        refine hb a ?_
        rw [← List.mem_reverse, hr]
        exact List.mem_cons_self _ _
      simp only [ha, if_true, if_false, ite_true, ite_false, reduceIte]
      rw [← hr, List.reverse_reverse]
  · unfold dropTrailing2Eq
    have hrev : (body ++ List.replicate 2 '=').reverse = '=' :: '=' :: body.reverse := by
      simp
    rw [hrev]
    simp

/-- Decomposition of a valid base64 string into its `=`-free body and
its trailing padding run. -/
theorem validBase64_decomp (s : String) (h : isValidBase64 s = true) :
    ∃ (body : List Char) (p : Nat),
      s.data = body ++ List.replicate p '=' ∧
      p ≤ 2 ∧
      (∀ c ∈ body, c ≠ '=') ∧
      (∀ c ∈ s.data, isB64Char c = true) ∧
      s.data.length % 4 = 0 := by
  unfold isValidBase64 at h
  simp only [Bool.and_eq_true, beq_iff_eq, List.all_eq_true,
    decide_eq_true_eq] at h
  obtain ⟨⟨⟨hall, hlen⟩, hple⟩, hbody⟩ := h
  obtain ⟨n, hn⟩ : ∃ n,
      (s.data.reverse.takeWhile fun c => decide (c = '=')) =
        List.replicate n '=' := by
    refine ⟨_, List.eq_replicate_of_mem ?_⟩
    intro c hc
    have := List.mem_takeWhile_imp hc
    simpa using this
  have hsplit : s.data =
      (s.data.reverse.dropWhile fun c => decide (c = '=')).reverse ++
        (s.data.reverse.takeWhile fun c => decide (c = '=')).reverse := by
    conv_lhs => rw [← List.reverse_reverse s.data,
      ← List.takeWhile_append_dropWhile
        (p := fun c => decide (c = '=')) (l := s.data.reverse)]
    rw [List.reverse_append]
  rw [hn, List.reverse_replicate] at hsplit
  have hlen2 := congrArg List.length hsplit
  rw [List.length_append, List.length_replicate] at hlen2
  exact ⟨_, n, hsplit, by omega, hbody, hall, hlen⟩

/-- `normalizeBase64` fixes every well-formed base64 string: there is no
whitespace to strip and no padding to add. -/
theorem normalizeBase64_id (s : String)
    (hall : ∀ c ∈ s.data, isB64Char c = true)
    (hlen : s.data.length % 4 = 0) : normalizeBase64 s = s := by
  obtain ⟨cs⟩ := s
  have hfilter : cs.filter (fun c => !jsWsChar c) = cs := by
    rw [List.filter_eq_self]
    intro c hc
    simp [not_jsWs_of_b64 c (hall c hc)]
  simp only [normalizeBase64, hfilter]
  rw [if_neg]
  exact fun h => h hlen

/-- `atob` accepts every well-formed base64 string: after the padding is
removed, the remaining length is never congruent 1 mod 4 and every
remaining character is in the alphabet proper. -/
theorem atobOk_of_valid (s : String) (h : isValidBase64 s = true) :
    atobOk s = true := by
  obtain ⟨body, p, hdecomp, hp, hbody, hall, hlen⟩ := validBase64_decomp s h
  have hlen2 := congrArg List.length hdecomp
  rw [List.length_append, List.length_replicate] at hlen2
  unfold atobOk
  have hfilter : s.data.filter (fun c => !jsonWs c) = s.data := by
    rw [List.filter_eq_self]
    intro c hc
    simp [not_jsonWs_of_b64 c (hall c hc)]
  simp only [hfilter]
  rw [if_pos (by simp only [beq_iff_eq]; exact hlen)]
  rw [hdecomp, dropTrailing2Eq_append body p hp hbody]
  rw [Bool.and_eq_true]
  constructor
  · simp only [bne_iff_ne, ne_eq, decide_eq_true_eq]
    omega
  · rw [List.all_eq_true]
    intro c hc
    have hcin : c ∈ s.data := by
      rw [hdecomp]
      exact List.mem_append_left _ hc
    simp [hall c hcin, hbody c hc]

/-- C6 (amended): `validate` raises the invalid-characters `FormatError`
for every input containing a non-whitespace character outside
`[A-Za-z0-9+/=]` (whitespace is stripped by the normalization that
`validate` applies first, so whitespace alone never triggers it); and
for every well-formed base64 string `s`, `validate(normalize(s))`
returns normally and the decoded-size estimate is non-negative. -/
theorem c6_validate_base64 :
    (∀ (s : String) (c : Char), c ∈ s.data → jsWsChar c = false →
      isB64Char c = false →
      assertAndExplainBase64 s = .error "base64 contains invalid characters") ∧
    (∀ s : String, isValidBase64 s = true →
      assertAndExplainBase64 (normalizeBase64 s) = .ok () ∧
      0 ≤ estimateBytesFromBase64Len (normalizeBase64 s).length
            (base64PaddingCount s)) := by
  constructor
  · intro s c hc hws hb
    unfold assertAndExplainBase64
    have hmem : c ∈ (normalizeBase64 s).data := by
      unfold normalizeBase64
      have h1 : c ∈ s.data.filter (fun c => !jsWsChar c) :=
        List.mem_filter.mpr ⟨hc, by simp [hws]⟩
      by_cases hpad : (String.mk (s.data.filter fun c => !jsWsChar c)).length % 4 ≠ 0
      · rw [if_pos hpad]
        exact List.mem_append_left _ h1
      · rw [if_neg hpad]
        exact h1
    have hany : (normalizeBase64 s).data.any (fun x => !isB64Char x) = true :=
      List.any_eq_true.mpr ⟨c, hmem, by simp [hb]⟩
    rw [if_pos hany]
  · intro s hv
    have hd := validBase64_decomp s hv
    obtain ⟨body, p, hdecomp, hp, hbody, hall, hlen⟩ := hd
    have hid : normalizeBase64 s = s := normalizeBase64_id s hall hlen
    refine ⟨?_, le_max_left 0 _⟩
    rw [hid]
    unfold assertAndExplainBase64
    rw [hid]
    have hnoinv : s.data.any (fun c => !isB64Char c) = false := by
      cases hca : s.data.any (fun c => !isB64Char c) with
      | false => rfl
      | true =>
          obtain ⟨c0, hc0, hb0⟩ := List.any_eq_true.mp hca
          simp [hall c0 hc0] at hb0
    rw [if_neg (by simp [hnoinv]), if_pos (atobOk_of_valid s hv)]

/-- Witness for C6 (amended): a `*` in the input raises the
invalid-characters error; a well-formed payload validates after
normalization with a non-negative size estimate. -/
theorem c6_validate_base64_witness :
    assertAndExplainBase64 "QU*JD" = .error "base64 contains invalid characters" ∧
    assertAndExplainBase64 (normalizeBase64 "QUJhYg==") = .ok () ∧
    0 ≤ estimateBytesFromBase64Len (normalizeBase64 "QUJhYg==").length
          (base64PaddingCount "QUJhYg==") :=
  ⟨c6_validate_base64.1 "QU*JD" '*' (by decide) (by decide) (by decide),
   (c6_validate_base64.2 "QUJhYg==" (by decide)).1,
   (c6_validate_base64.2 "QUJhYg==" (by decide)).2⟩

/-- C6 counterexample: `"QQ==\n"` contains a newline — a character
outside `[A-Za-z0-9+/=]` — yet `validate` does not raise, because it
normalizes (strips whitespace) before checking the character class; the
claim as stated requires a `FormatError` here. -/
theorem c6_counterexample :
    ('\n' ∈ "QQ==\n".data) ∧ isB64Char '\n' = false ∧
    assertAndExplainBase64 "QQ==\n" = .ok () :=
  ⟨by decide, by decide, rfl⟩
